import Mathlib

/-!
Verification development for the vim-graphical-preview engine.

The definitions below are a shallow embedding of the Rust sources:
src/node_view.rs (viewport classification), src/render.rs (draw loop,
draw_node transition table, update_metadata, the Render state) and
src/content.rs (per-node asynchronous generation state machine with a
geometry-keyed SIXEL cache, and the content reconciliation).

Conventions used throughout:
- Rust usize/u64 become Nat; isize becomes Int.
- A Rust tuple field .0/.1 becomes the Lean pair field .1/.2.
- A usize subtraction that can panic on underflow is modelled with the
  checked subtraction csub below, so a panicking execution is none.
- An "as usize"/"as isize" cast of a value that is non-negative at the
  cast site is modelled with Int.toNat / Nat coercion.
-/

/-- Checked usize subtraction: Rust panics (in checked builds) when the
subtrahend exceeds the minuend, modelled as none. -/
def csub (a b : Nat) : Option Nat :=
  if b ≤ a then some (a - b) else none

/-- Metadata (src/render.rs): file_range, viewport, cursor and window
position as supplied by the host. -/
structure Metadata where
  file_range : Nat × Nat
  viewport : Nat × Nat
  cursor : Nat
  winpos : Nat × Nat
deriving DecidableEq, Repr

/-- NodeView (src/node_view.rs): visibility classification of a node. -/
inductive NodeView where
  | Hidden : NodeView
  | UpperBorder : Nat → Nat → NodeView
  | LowerBorder : Nat → Nat → NodeView
  | Visible : Nat → Nat → NodeView
deriving DecidableEq, Repr

namespace Render

/-- Node (src/render.rs): the rendered region as seen by the draw loop.
The NodeFile handle (an external image library object) is not part of
the arithmetic modelled here. -/
structure Node where
  id : String
  range : Nat × Nat
deriving DecidableEq, Repr

end Render

/-- NodeView::new (src/node_view.rs lines 13-39). The two usize
subtractions that can underflow (range.1 - range.0, and
viewport.1 - distance_lower) are checked; the other subtractions are
guarded by the surrounding branch conditions exactly as in the source. -/
def NodeView.new (node : Render.Node) (metadata : Metadata) (offset : Int) :
    Option NodeView :=
  match csub node.range.2 node.range.1 with
  | none => none
  | some d =>
    let height : Nat := d + 1
    if offset ≤ -(height : Int) then
      -- if we are above the upper line, just skip
      some .Hidden
    else if offset < 0 then
      -- upper cross-over region: start = (-offset) as usize; height -= start
      let start : Nat := (-offset).toNat
      match csub height start with
      | none => none
      | some height2 => some (.UpperBorder start height2)
    else
      let distance_lower : Int :=
        ((max metadata.viewport.2 metadata.file_range.2 : Nat) : Int)
          - (node.range.1 : Int) + 1
      if distance_lower ≤ 0 then
        some .Hidden
      else if distance_lower.toNat < height then
        -- height -= (height as isize - distance_lower) as usize
        match csub height ((height : Int) - distance_lower).toNat with
        | none => none
        | some height2 =>
          -- start = metadata.viewport.1 as usize - distance_lower as usize
          match csub metadata.viewport.2 distance_lower.toNat with
          | none => none
          | some start => some (.LowerBorder start height2)
      else
        some (.Visible offset.toNat height)

/-- Classification following the words of the spec (section 4.4), used to
compare the claimed classification against the source function. All
arithmetic is exact integer arithmetic. -/
inductive SpecView where
  | Hidden : SpecView
  | UpperBorder : Int → Int → SpecView
  | LowerBorder : Int → Int → SpecView
  | Visible : Int → Int → SpecView
deriving DecidableEq, Repr

/-- Modelled from the spec wording of the viewport classification: height
is end - start + 1, distanceToBottom is max(viewportHeight, fileRangeEnd)
- start + 1, and the four cases are as written in the claim. -/
def SpecView.classify (range : Nat × Nat) (viewportHeight fileRangeEnd : Nat)
    (offset : Int) : SpecView :=
  let height : Int := (range.2 : Int) - (range.1 : Int) + 1
  if offset ≤ -height then .Hidden
  else if offset < 0 then .UpperBorder (-offset) (height + offset)
  else
    let dtb : Int := (max viewportHeight fileRangeEnd : Int) - (range.1 : Int) + 1
    if dtb ≤ 0 then .Hidden
    else if dtb < height then .LowerBorder ((viewportHeight : Int) - dtb) dtb
    else .Visible offset height

/-- FoldState (src/render.rs). -/
inductive FoldState where
  | Folded : Nat → FoldState
  | Open : FoldState
deriving DecidableEq, Repr

/-- Fold (src/render.rs): a section header anchor with its fold state. -/
structure Fold where
  line : Nat
  state : FoldState
deriving DecidableEq, Repr

/-- FoldInner (src/render.rs): an entry of the ordered index, either a
fold anchor or a node reference with its last drawn NodeView. -/
inductive FoldInner where
  | Fold : Fold → FoldInner
  | Node : String × NodeView → FoldInner
deriving DecidableEq, Repr

/-- FoldInner::is_in_view (src/render.rs lines 59-71). The node ranges
are supplied as a total lookup, mirroring blocks.get(id).unwrap(). -/
def FoldInner.is_in_view (self : FoldInner) (metadata : Metadata)
    (blocks : String → Nat × Nat) : Bool :=
  match self with
  | .Node (id, _) =>
    let range := blocks id
    decide (metadata.file_range.1 ≤ range.2) &&
      decide (range.1 ≤ metadata.file_range.2)
  | .Fold fold =>
    decide (metadata.file_range.1 ≤ fold.line) &&
      decide (fold.line ≤ metadata.file_range.2)

namespace Render

/-- Emission produced by one draw_node call: the height the image is
fitted to, the optional crop window (height, vertical offset) handed to
crop_image, and the terminal row the blob is positioned at. -/
structure EmitOp where
  fitHeight : Nat
  crop : Option (Nat × Nat)
  pos : Nat
deriving DecidableEq, Repr

/-- Render::draw_node, decision table only (src/render.rs lines 244-295):
given the previously stored view and the freshly computed view, decide
whether pixels are emitted and with which geometry. theight is
node.range.1 - node.range.0 as in the source; char_height scales rows to
pixels. The node ranges are built as (line, line + height), so the
subtraction cannot underflow. -/
def drawNodeData (range : Nat × Nat) (charHeight : Nat)
    (view newView : NodeView) : Option EmitOp :=
  let theight := range.2 - range.1
  match view, newView with
  | .UpperBorder _ _, .Visible pos _
  | .LowerBorder _ _, .Visible pos _
  | .Hidden, .Visible pos _ =>
    some ⟨theight * charHeight, none, pos⟩
  | .Hidden, .UpperBorder y height =>
    some ⟨theight * charHeight, some (height * charHeight, y * charHeight), 0⟩
  | .UpperBorder y_old _, .UpperBorder y height =>
    if y < y_old then
      some ⟨theight * charHeight, some (height * charHeight, y * charHeight), 0⟩
    else none
  | .Hidden, .LowerBorder pos height =>
    some ⟨theight * charHeight, some (height * charHeight, 0), pos⟩
  | .LowerBorder _ height_old, .LowerBorder pos height =>
    if height_old < height then
      some ⟨theight * charHeight, some (height * charHeight, 0), pos⟩
    else none
  | _, _ => none

/-- Render::draw, traversal loop (src/render.rs lines 182-224): walks the
in-view entries accumulating last_line, top_offset and the fold skip
boundary, and records each (node id, top_offset) pair that is handed to
draw_node for classification. Entries whose key is at most an active
skip boundary are dropped; the boundary is cleared at the first entry
past it, exactly as skip_to.take() does in the source. -/
def drawGo (blocks : String → Nat × Nat) :
    List (Nat × FoldInner) → Nat → Int → Option Nat → List (String × Int)
  | [], _, _, _ => []
  | (line, item) :: rest, lastLine, topOffset, skipTo =>
    let body : List (String × Int) :=
      match item with
      | .Node (id, _) =>
        let range := blocks id
        let off := topOffset + (range.1 : Int) - (lastLine : Int)
        (id, off) :: drawGo blocks rest range.1 off none
      | .Fold fold =>
        let off := topOffset + (fold.line : Int) - (lastLine : Int)
        match fold.state with
        | .Folded e => drawGo blocks rest e off (some e)
        | .Open => drawGo blocks rest fold.line off none
    match skipTo with
    | some s =>
      if line ≤ s then drawGo blocks rest lastLine topOffset (some s)
      else body
    | none => body

/-- Render::draw (src/render.rs lines 159-227), classification trace:
filter the ordered index to the in-view entries, then run the loop with
last_line initialized to the first visible file line and top_offset 0. -/
def drawCalls (metadata : Metadata) (blocks : String → Nat × Nat)
    (strcts : List (Nat × FoldInner)) : List (String × Int) :=
  let items := strcts.filter (fun p => p.2.is_in_view metadata blocks)
  drawGo blocks items metadata.file_range.1 0 none

end Render

/-- Render (src/render.rs lines 133-141): the engine state reachable from
the boundary operations; stdout and the two regexes carry no state that
the modelled operations read. -/
structure RenderState where
  blocks : List (String × Render.Node)
  strcts : List (Nat × FoldInner)
  metadata : Metadata
deriving DecidableEq, Repr

/-- Render::update_metadata (src/render.rs lines 339-345): parse the
supplied metadata and store it; nothing else is touched. -/
def RenderState.update_metadata (self : RenderState) (metadata : Metadata) :
    RenderState :=
  { self with metadata := metadata }

/-- ContentType (src/content.rs lines 21-27). -/
inductive ContentType where
  | Math
  | Gnuplot
  | Tex
  | File
deriving DecidableEq, Repr

/-- Error (src/error.rs). InvalidImage carries the offending path as in
Error::InvalidImage. -/
inductive Error where
  | InvalidMath : String → String → Nat → Error
  | InvalidDvisvgm : String → Error
  | FileNotFound : String → Error
  | BinaryNotFound : String → Error
  | UnknownFence : String → Error
  | Io : String → Error
  | InvalidImage : String → Error
deriving DecidableEq, Repr

/-- WrappedWand (src/content.rs line 96): the loaded vector artifact. The
external image library handle is modelled by the image data it wraps. -/
structure WrappedWand where
  img : String
deriving DecidableEq, Repr

/-- NodeDim (src/content.rs lines 16-19): the geometry key of the SIXEL
cache, target pixel height plus optional crop window. -/
structure NodeDim where
  height : Nat
  crop : Option (Nat × Nat)
deriving DecidableEq, Repr

/-- Sixel (src/content.rs line 13): an encoded output blob. The external
fit/crop/encode chain is deterministic in the wand and the geometry, so a
blob is modelled by that pair of inputs. -/
structure Sixel where
  wand : WrappedWand
  dim : NodeDim
deriving DecidableEq, Repr

/-- WrappedWand::wand_to_sixel (src/content.rs lines 99-107): encode the
artifact at the requested geometry. -/
def WrappedWand.wand_to_sixel (self : WrappedWand) (dim : NodeDim) : Sixel :=
  ⟨self, dim⟩

/-- ContentState (src/content.rs lines 113-118). -/
inductive ContentState where
  | Empty : ContentState
  | Running : ContentState
  | Ok : WrappedWand → ContentState
  | Err : Error → ContentState
deriving DecidableEq, Repr

/-- Lookup in the SIXEL cache, a HashMap in the source. -/
def lookupCache (cache : List (NodeDim × Sixel)) (dim : NodeDim) :
    Option Sixel :=
  match cache with
  | [] => none
  | (k, v) :: rest => if k = dim then some v else lookupCache rest dim

/-- HashMap::insert: replace the binding for the key, or append it. -/
def insertCache : List (NodeDim × Sixel) → NodeDim → Sixel →
    List (NodeDim × Sixel)
  | [], dim, blob => [(dim, blob)]
  | (k, v) :: rest, dim, blob =>
    if k = dim then (dim, blob) :: rest else (k, v) :: insertCache rest dim blob

namespace Content

/-- Node (src/content.rs lines 129-135): the persistent renderable unit
with its generation state and geometry cache. The Arc<RwLock<..>> cells
are modelled by plain fields; the draw thread is the only requester and
background completions are separate steps of the relation below. -/
structure Node where
  id : String
  range : Nat × Nat
  content : String × ContentType
  state : ContentState
  sixel_cache : List (NodeDim × Sixel)
deriving DecidableEq, Repr

/-- Node::new (src/content.rs lines 138-146): a fresh node starts Empty
with an empty cache. -/
def Node.new (id : String) (range : Nat × Nat) (content : String)
    (kind : ContentType) : Node :=
  { id := id, range := range, content := (content, kind),
    state := .Empty, sixel_cache := [] }

/-- Background work spawned by get_sixel: either artifact generation from
the node content, or encoding a ready artifact at one geometry. -/
inductive Work where
  | generate : String × ContentType → Work
  | toSixel : WrappedWand → NodeDim → Work
deriving DecidableEq, Repr

/-- Node::get_sixel (src/content.rs lines 148-194): returns the answer
handed to the caller, the node as left behind (the source steals the
state, matches on it and writes the successor state back), and the
background work spawned by this call, if any. -/
def Node.get_sixel (self : Node) (dim : NodeDim) :
    Option (Except Error Sixel) × Node × Option Work :=
  match lookupCache self.sixel_cache dim with
  | some data => (some (.ok data), self, none)
  | none =>
    match self.state with
    | .Empty =>
      (none, { self with state := .Running }, some (.generate self.content))
    | .Err error =>
      (some (.error error), { self with state := .Empty }, none)
    | .Ok content =>
      (none, { self with state := .Running }, some (.toSixel content dim))
    | .Running => (none, self, none)

/-- One transition of a node together with its pending background work:
either the control thread issues a geometry request, or one pending
background task completes. A generate task finishes with whatever the
external toolchain produced; a toSixel task inserts the encoded blob and
restores the Ok state, exactly as the spawned closures in get_sixel do. -/
inductive Step : Node × List Work → Node × List Work → Prop where
  | request (n : Node) (p : List Work) (dim : NodeDim) :
      Step (n, p)
        ((n.get_sixel dim).2.1, p ++ ((n.get_sixel dim).2.2).toList)
  | completeGenOk (n : Node) (p₁ p₂ : List Work) (c : String × ContentType)
      (w : WrappedWand) :
      Step (n, p₁ ++ .generate c :: p₂)
        ({ n with state := .Ok w }, p₁ ++ p₂)
  | completeGenErr (n : Node) (p₁ p₂ : List Work) (c : String × ContentType)
      (e : Error) :
      Step (n, p₁ ++ .generate c :: p₂)
        ({ n with state := .Err e }, p₁ ++ p₂)
  | completeSixel (n : Node) (p₁ p₂ : List Work) (w : WrappedWand)
      (dim : NodeDim) :
      Step (n, p₁ ++ .toSixel w dim :: p₂)
        ({ n with
            sixel_cache := insertCache n.sixel_cache dim (w.wand_to_sixel dim),
            state := .Ok w }, p₁ ++ p₂)

/-- States reachable from a freshly constructed node with no pending
background work. -/
inductive Reach (n₀ : Node) : Node × List Work → Prop where
  | init : Reach n₀ (n₀, [])
  | step {s s' : Node × List Work} : Reach n₀ s → Step s s' → Reach n₀ s'

end Content

/-- Lookup in a String-keyed BTreeMap, modelled as an association list. -/
def lookupNode (m : List (String × Content.Node)) (id : String) :
    Option Content.Node :=
  match m with
  | [] => none
  | (k, v) :: rest => if k = id then some v else lookupNode rest id

/-- BTreeMap::remove: return the binding and the map without it. -/
def removeNode (m : List (String × Content.Node)) (id : String) :
    Option (Content.Node × List (String × Content.Node)) :=
  match m with
  | [] => none
  | (k, v) :: rest =>
    if k = id then some (v, rest)
    else
      match removeNode rest id with
      | some (n, rest2) => some (n, (k, v) :: rest2)
      | none => none

/-- BTreeMap::insert for the node map: replace the binding for the key,
or append it. -/
def insertNode : List (String × Content.Node) → String → Content.Node →
    List (String × Content.Node)
  | [], id, n => [(id, n)]
  | (k, v) :: rest, id, n =>
    if k = id then (id, n) :: rest else (k, v) :: insertNode rest id n

/-- BTreeMap::insert for the ordered index: replace the binding for the
key, or append it. -/
def insertStrct : List (Nat × FoldInner) → Nat → FoldInner →
    List (Nat × FoldInner)
  | [], line, it => [(line, it)]
  | (k, v) :: rest, line, it =>
    if k = line then (line, it) :: rest else (k, v) :: insertStrct rest line it

namespace Content

/-- One scanned content region as produced by the fenced-block and
file-reference scanners of Content::process (src/content.rs lines
234-257): declared or inferred height, 1-based start line, the inner
content, its identity (the hash of the content) and the kind. The regex
scanning itself is external input here; it is deterministic in the
document text. -/
structure Region where
  height : Nat
  line : Nat
  content : String
  id : String
  kind : ContentType
deriving DecidableEq, Repr

/-- Reconciliation loop of Content::process (src/content.rs lines
259-278): for each region in order, the node with that identity is moved
over from the previous node set with its range updated in place (setting
the changed flag when the range moved), or a fresh node is created
(setting the changed flag); either way the ordered index gains a node
entry carrying NodeView::Hidden at the region start line. The same loop
appears in Render::update_content (src/render.rs lines 368-400). -/
def processGo (regions : List Region)
    (old_nodes nodes : List (String × Node)) (strct : List (Nat × FoldInner))
    (any_changed : Bool) :
    List (String × Node) × List (Nat × FoldInner) × Bool :=
  match regions with
  | [] => (nodes, strct, any_changed)
  | r :: rest =>
    let new_range := (r.line, r.line + r.height)
    match removeNode old_nodes r.id with
    | some (node, old_rest) =>
      processGo rest old_rest
        (insertNode nodes r.id { node with range := new_range })
        (insertStrct strct r.line (.Node (r.id, .Hidden)))
        (any_changed || decide (new_range ≠ node.range))
    | none =>
      processGo rest old_nodes
        (insertNode nodes r.id (Node.new r.id new_range r.content r.kind))
        (insertStrct strct r.line (.Node (r.id, .Hidden)))
        true

/-- Content::process (src/content.rs lines 214-294), reconciliation part:
fold anchors become Open fold entries first, then the region entries are
inserted (chained after the folds in the source); the previous node set
is consumed. Returns the new node set, the new ordered index, and the
changed flag. -/
def process (folds : List Nat) (regions : List Region)
    (old_nodes : List (String × Node)) :
    List (String × Node) × List (Nat × FoldInner) × Bool :=
  let strct := folds.map (fun line => (line, FoldInner.Fold ⟨line, .Open⟩))
  processGo regions old_nodes [] strct false

end Content

/-- Emission condition modelled from the spec wording of the transition
table (old NodeView to new NodeView), used to compare the claimed table
against the draw_node decision. -/
def emitsSpec : NodeView → NodeView → Bool
  | .Hidden, .Visible _ _ => true
  | .UpperBorder _ _, .Visible _ _ => true
  | .LowerBorder _ _, .Visible _ _ => true
  | .Hidden, .UpperBorder _ _ => true
  | .UpperBorder y_old _, .UpperBorder y _ => decide (y < y_old)
  | .Hidden, .LowerBorder _ _ => true
  | .LowerBorder _ h_old, .LowerBorder _ h => decide (h_old < h)
  | _, _ => false

namespace Content

/-- Invariant of a node together with its pending background work, closed
under Step and established by Node.new: at most one task is pending; the
state is Running exactly while a task is pending; an Empty or Err state
has an empty cache; a pending generation implies an empty cache; and a
pending geometry render is for a key not yet in the cache. -/
def Inv (s : Node × List Work) : Prop :=
  s.2.length ≤ 1 ∧
  (s.1.state = .Running ↔ s.2 ≠ []) ∧
  ((s.1.state = .Empty ∨ ∃ e, s.1.state = .Err e) → s.1.sixel_cache = []) ∧
  (∀ c, Work.generate c ∈ s.2 → s.1.sixel_cache = []) ∧
  (∀ w dim, Work.toSixel w dim ∈ s.2 → lookupCache s.1.sixel_cache dim = none)

end Content

/-- Sample fresh node used by concrete executions of the state machine. -/
def sampleNode0 : Content.Node := Content.Node.new "a" (1, 2) "x" .Math

/-- Sample artifact handle. -/
def sampleWand : WrappedWand := ⟨"img"⟩

/-- Sample geometry key. -/
def sampleDim : NodeDim := ⟨28, none⟩

/-- A second, distinct geometry key. -/
def sampleDim2 : NodeDim := ⟨56, none⟩

/-- The blob the sample artifact encodes to at sampleDim. -/
def sampleBlob : Sixel := ⟨sampleWand, sampleDim⟩

/-- The sample node after its generation completed successfully. -/
def sampleNodeOk : Content.Node := ⟨"a", (1, 2), ("x", .Math), .Ok sampleWand, []⟩

/-- The sample node after one geometry render for sampleDim completed. -/
def sampleNodeCached : Content.Node :=
  ⟨"a", (1, 2), ("x", .Math), .Ok sampleWand, [(sampleDim, sampleBlob)]⟩

/-- The sample node while a second geometry render (for sampleDim2) is in
flight: state Running with sampleDim already cached. -/
def sampleNodeRunningCached : Content.Node :=
  ⟨"a", (1, 2), ("x", .Math), .Running, [(sampleDim, sampleBlob)]⟩

/-- The sample node after its generation failed. -/
def sampleNodeErr : Content.Node :=
  ⟨"a", (1, 2), ("x", .Math), .Err (.FileNotFound "f"), []⟩

/-- Closed form of NodeView.new over exact integer arithmetic, valid for
well-formed ranges; the none case is exactly the usize underflow of the
screen-row subtraction in the LowerBorder branch. -/
def newAlt (r1 r2 vp fr : Nat) (offset : Int) : Option NodeView :=
  if offset ≤ -((r2 : Int) - (r1 : Int) + 1) then some .Hidden
  else if offset < 0 then
    some (.UpperBorder (-offset).toNat ((r2 : Int) - (r1 : Int) + 1 + offset).toNat)
  else if ((max vp fr : Nat) : Int) - (r1 : Int) + 1 ≤ 0 then some .Hidden
  else if ((max vp fr : Nat) : Int) - (r1 : Int) + 1 < (r2 : Int) - (r1 : Int) + 1 then
    if ((max vp fr : Nat) : Int) - (r1 : Int) + 1 ≤ (vp : Int) then
      some (.LowerBorder (vp - (((max vp fr : Nat) : Int) - (r1 : Int) + 1).toNat)
        (((max vp fr : Nat) : Int) - (r1 : Int) + 1).toNat)
    else none
  else some (.Visible offset.toNat ((r2 : Int) - (r1 : Int) + 1).toNat)

theorem csub_eq_some {a b : Nat} (h : b ≤ a) : csub a b = some (a - b) := by
  simp [csub, h]

theorem csub_eq_none {a b : Nat} (h : a < b) : csub a b = none := by
  simp only [csub, if_neg (by omega : ¬ b ≤ a)]

theorem nodeView_new_eq_alt (node : Render.Node) (md : Metadata) (offset : Int)
    (hr : node.range.1 ≤ node.range.2) :
    NodeView.new node md offset =
      newAlt node.range.1 node.range.2 md.viewport.2 md.file_range.2 offset := by
  obtain ⟨id, r1, r2⟩ := node
  dsimp only at hr ⊢
  simp only [NodeView.new, newAlt, csub_eq_some hr]
  by_cases h1 : offset ≤ -(((r2 - r1 + 1 : Nat)) : Int)
  · have h1a : offset ≤ -((r2 : Int) - (r1 : Int) + 1) := by omega
    rw [if_pos h1, if_pos h1a]
  · have h1a : ¬ offset ≤ -((r2 : Int) - (r1 : Int) + 1) := by omega
    rw [if_neg h1, if_neg h1a]
    by_cases h2 : offset < 0
    · have hle : (-offset).toNat ≤ r2 - r1 + 1 := by omega
      rw [if_pos h2, if_pos h2, csub_eq_some hle]
      simp only [Option.some.injEq, NodeView.UpperBorder.injEq]
      exact ⟨trivial, by omega⟩
    · rw [if_neg h2, if_neg h2]
      by_cases h3 : ((max md.viewport.2 md.file_range.2 : Nat) : Int) - (r1 : Int) + 1 ≤ 0
      · rw [if_pos h3, if_pos h3]
      · rw [if_neg h3, if_neg h3]
        by_cases h4 : (((max md.viewport.2 md.file_range.2 : Nat) : Int) - (r1 : Int)
            + 1).toNat < r2 - r1 + 1
        · have h4a : ((max md.viewport.2 md.file_range.2 : Nat) : Int) - (r1 : Int) + 1 <
              (r2 : Int) - (r1 : Int) + 1 := by omega
          have hle1 : (((r2 - r1 + 1 : Nat) : Int) -
              (((max md.viewport.2 md.file_range.2 : Nat) : Int) - (r1 : Int) + 1)).toNat ≤
                r2 - r1 + 1 := by omega
          rw [if_pos h4, if_pos h4a, csub_eq_some hle1]
          by_cases h5 : (((max md.viewport.2 md.file_range.2 : Nat) : Int) - (r1 : Int)
              + 1).toNat ≤ md.viewport.2
          · have h5a : ((max md.viewport.2 md.file_range.2 : Nat) : Int) - (r1 : Int) + 1 ≤
                (md.viewport.2 : Int) := by omega
            rw [csub_eq_some h5, if_pos h5a]
            simp only [Option.some.injEq, NodeView.LowerBorder.injEq]
            exact ⟨trivial, by omega⟩
          · have h5a : ¬ ((max md.viewport.2 md.file_range.2 : Nat) : Int) - (r1 : Int) + 1 ≤
                (md.viewport.2 : Int) := by omega
            have h5b : md.viewport.2 < (((max md.viewport.2 md.file_range.2 : Nat) : Int) -
                (r1 : Int) + 1).toNat := by omega
            rw [csub_eq_none h5b, if_neg h5a]
        · have h4a : ¬ ((max md.viewport.2 md.file_range.2 : Nat) : Int) - (r1 : Int) + 1 <
              (r2 : Int) - (r1 : Int) + 1 := by omega
          rw [if_neg h4, if_neg h4a]
          simp only [Option.some.injEq, NodeView.Visible.injEq]
          exact ⟨trivial, by omega⟩

/-- C1 (amended): for a node line range with end >= start, NodeView::new
classifies as claimed: Hidden above the window, UpperBorder(-offset,
height + offset) on the upper edge, then with distanceToBottom =
max(viewportHeight, fileRangeEnd) - start + 1, Hidden when it is <= 0,
LowerBorder(viewportHeight - distanceToBottom, distanceToBottom) when
0 < distanceToBottom < height provided distanceToBottom <=
viewportHeight (the screen-row subtraction underflows otherwise), and
Visible(offset, height) otherwise; in particular the three concrete
examples of the claim hold. -/
theorem nodeView_new_classification (node : Render.Node) (md : Metadata)
    (offset : Int) (hr : node.range.1 ≤ node.range.2) :
    (offset ≤ -((node.range.2 : Int) - (node.range.1 : Int) + 1) →
      NodeView.new node md offset = some .Hidden) ∧
    (-((node.range.2 : Int) - (node.range.1 : Int) + 1) < offset → offset < 0 →
      NodeView.new node md offset =
        some (.UpperBorder (-offset).toNat
          ((node.range.2 : Int) - (node.range.1 : Int) + 1 + offset).toNat)) ∧
    (0 ≤ offset →
      ((max md.viewport.2 md.file_range.2 : Nat) : Int) - (node.range.1 : Int) + 1 ≤ 0 →
      NodeView.new node md offset = some .Hidden) ∧
    (0 ≤ offset →
      0 < ((max md.viewport.2 md.file_range.2 : Nat) : Int) - (node.range.1 : Int) + 1 →
      ((max md.viewport.2 md.file_range.2 : Nat) : Int) - (node.range.1 : Int) + 1 <
        (node.range.2 : Int) - (node.range.1 : Int) + 1 →
      ((max md.viewport.2 md.file_range.2 : Nat) : Int) - (node.range.1 : Int) + 1 ≤
        (md.viewport.2 : Int) →
      NodeView.new node md offset =
        some (.LowerBorder
          (md.viewport.2 - (((max md.viewport.2 md.file_range.2 : Nat) : Int) -
            (node.range.1 : Int) + 1).toNat)
          ((((max md.viewport.2 md.file_range.2 : Nat) : Int) -
            (node.range.1 : Int) + 1)).toNat)) ∧
    (0 ≤ offset →
      (node.range.2 : Int) - (node.range.1 : Int) + 1 ≤
        ((max md.viewport.2 md.file_range.2 : Nat) : Int) - (node.range.1 : Int) + 1 →
      NodeView.new node md offset =
        some (.Visible offset.toNat
          ((node.range.2 : Int) - (node.range.1 : Int) + 1).toNat)) ∧
    NodeView.new ⟨"n", (10, 14)⟩ ⟨(1, 20), (20, 20), 1, (1, 1)⟩ (-5) = some .Hidden ∧
    NodeView.new ⟨"n", (10, 14)⟩ ⟨(1, 20), (20, 20), 1, (1, 1)⟩ (-3) =
      some (.UpperBorder 3 2) ∧
    NodeView.new ⟨"n", (10, 14)⟩ ⟨(1, 20), (20, 20), 1, (1, 1)⟩ 0 =
      some (.Visible 0 5) := by
  rw [nodeView_new_eq_alt node md offset hr]
  refine ⟨?_, ?_, ?_, ?_, ?_, by decide, by decide, by decide⟩
  · intro h1
    rw [newAlt, if_pos h1]
  · intro h1 h2
    rw [newAlt, if_neg (by omega), if_pos h2]
  · intro h1 h2
    rw [newAlt, if_neg (by omega), if_neg (by omega), if_pos h2]
  · intro h1 h2 h3 h4
    rw [newAlt, if_neg (by omega), if_neg (by omega), if_neg (by omega),
      if_pos h3, if_pos h4]
  · intro h1 h2
    rw [newAlt, if_neg (by omega), if_neg (by omega), if_neg (by omega),
      if_neg (by omega)]

/-- C1 witness: the upper-border case of the classification at the
concrete boundary example of the claim. -/
theorem nodeView_new_classification_witness :
    NodeView.new ⟨"n", (10, 14)⟩ ⟨(1, 20), (20, 20), 1, (1, 1)⟩ (-3) =
      some (.UpperBorder 3 2) := by
  rw [(nodeView_new_classification ⟨"n", (10, 14)⟩ ⟨(1, 20), (20, 20), 1, (1, 1)⟩
    (-3) (by decide)).2.1 (by decide) (by decide)]
  decide

/-- C1 counterexample: at range (10, 30), viewport height 5, file range
end 20 and offset 0, distanceToBottom is 11 with 0 < 11 < 21, so the
claim as stated demands a LowerBorder result, but the source subtraction
viewport.1 - distance_lower underflows (a usize panic), so no NodeView
is produced at all. -/
theorem nodeView_new_classification_cex :
    NodeView.new ⟨"n", (10, 30)⟩ ⟨(1, 20), (5, 5), 1, (1, 1)⟩ 0 = none ∧
    (0 : Int) < ((max 5 20 : Nat) : Int) - 10 + 1 ∧
    ((max 5 20 : Nat) : Int) - 10 + 1 < (30 : Int) - 10 + 1 := by
  refine ⟨by decide, by decide, by decide⟩

/-- C10 (amended): for every well-formed range the classification is
total except exactly when the LowerBorder branch is reached with
distanceToBottom exceeding the viewport height (where the screen-row
usize subtraction underflows); every returned UpperBorder(skip, vh) has
skip >= 1, vh >= 1 and skip + vh = end - start + 1, and every returned
LowerBorder(row, vh) has 1 <= vh < end - start + 1. -/
theorem nodeView_new_total_consistent (node : Render.Node) (md : Metadata)
    (offset : Int) (hr : node.range.1 ≤ node.range.2) :
    ((NodeView.new node md offset).isSome = true ↔
      ¬ (0 ≤ offset ∧
        0 < ((max md.viewport.2 md.file_range.2 : Nat) : Int) - (node.range.1 : Int) + 1 ∧
        ((max md.viewport.2 md.file_range.2 : Nat) : Int) - (node.range.1 : Int) + 1 <
          (node.range.2 : Int) - (node.range.1 : Int) + 1 ∧
        (md.viewport.2 : Int) <
          ((max md.viewport.2 md.file_range.2 : Nat) : Int) - (node.range.1 : Int) + 1)) ∧
    (∀ skip vh, NodeView.new node md offset = some (.UpperBorder skip vh) →
      1 ≤ skip ∧ 1 ≤ vh ∧ skip + vh = node.range.2 - node.range.1 + 1) ∧
    (∀ row vh, NodeView.new node md offset = some (.LowerBorder row vh) →
      1 ≤ vh ∧ vh < node.range.2 - node.range.1 + 1) := by
  rw [nodeView_new_eq_alt node md offset hr, newAlt]
  by_cases h1 : offset ≤ -((node.range.2 : Int) - (node.range.1 : Int) + 1)
  · rw [if_pos h1]
    refine ⟨by simp; omega, by simp, by simp⟩
  · rw [if_neg h1]
    by_cases h2 : offset < 0
    · rw [if_pos h2]
      refine ⟨by simp; omega, ?_, by simp⟩
      intro skip vh h
      simp only [Option.some.injEq, NodeView.UpperBorder.injEq] at h
      obtain ⟨hs, hv⟩ := h
      omega
    · rw [if_neg h2]
      by_cases h3 : ((max md.viewport.2 md.file_range.2 : Nat) : Int) -
          (node.range.1 : Int) + 1 ≤ 0
      · rw [if_pos h3]
        refine ⟨by simp; omega, by simp, by simp⟩
      · rw [if_neg h3]
        by_cases h4 : ((max md.viewport.2 md.file_range.2 : Nat) : Int) -
            (node.range.1 : Int) + 1 < (node.range.2 : Int) - (node.range.1 : Int) + 1
        · rw [if_pos h4]
          by_cases h5 : ((max md.viewport.2 md.file_range.2 : Nat) : Int) -
              (node.range.1 : Int) + 1 ≤ (md.viewport.2 : Int)
          · rw [if_pos h5]
            refine ⟨by simp; omega, by simp, ?_⟩
            intro row vh h
            simp only [Option.some.injEq, NodeView.LowerBorder.injEq] at h
            obtain ⟨hrow, hv⟩ := h
            omega
          · rw [if_neg h5]
            refine ⟨by simp; omega, by simp, by simp⟩
        · rw [if_neg h4]
          refine ⟨by simp; omega, by simp, by simp⟩

/-- C10 witness: the consistency facts instantiated at a concrete
upper-border classification. -/
theorem nodeView_new_total_consistent_witness :
    1 ≤ 2 ∧ 1 ≤ 3 ∧ 2 + 3 = 14 - 10 + 1 :=
  (nodeView_new_total_consistent ⟨"n", (10, 14)⟩ ⟨(1, 20), (20, 20), 1, (1, 1)⟩
    (-2) (by decide)).2.1 2 3 (by decide)

/-- C10 counterexample: the classification is not total; at range (8, 40),
viewport height 4, file range end 25 and offset 2 the LowerBorder branch
is reached with distanceToBottom 18 > 4, the screen-row subtraction
underflows, and no NodeView is returned. -/
theorem nodeView_new_total_consistent_cex :
    NodeView.new ⟨"n", (8, 40)⟩ ⟨(1, 25), (4, 4), 1, (1, 1)⟩ 2 = none := by
  decide

/-- C2: draw_node emits new pixels exactly per the transition table: any
transition from Hidden, UpperBorder or LowerBorder into Visible emits a
full-height (uncropped) render positioned at the target row; Hidden to
UpperBorder and skip-shrinking UpperBorder to UpperBorder emit a render
cropped from the top (crop window starting skip rows down); Hidden to
LowerBorder and height-growing LowerBorder to LowerBorder emit a render
cropped from the bottom (crop window starting at the top); every other
transition (no change, shrinking transitions, transitions out of
Visible) emits nothing. -/
theorem drawNode_transition_table (range : Nat × Nat) (ch : Nat) :
    (∀ v v', (Render.drawNodeData range ch v v').isSome = emitsSpec v v') ∧
    (∀ pos h, Render.drawNodeData range ch .Hidden (.Visible pos h) =
      some ⟨(range.2 - range.1) * ch, none, pos⟩) ∧
    (∀ a b pos h, Render.drawNodeData range ch (.UpperBorder a b) (.Visible pos h) =
      some ⟨(range.2 - range.1) * ch, none, pos⟩) ∧
    (∀ a b pos h, Render.drawNodeData range ch (.LowerBorder a b) (.Visible pos h) =
      some ⟨(range.2 - range.1) * ch, none, pos⟩) ∧
    (∀ y h, Render.drawNodeData range ch .Hidden (.UpperBorder y h) =
      some ⟨(range.2 - range.1) * ch, some (h * ch, y * ch), 0⟩) ∧
    (∀ y_old b y h, y < y_old →
      Render.drawNodeData range ch (.UpperBorder y_old b) (.UpperBorder y h) =
        some ⟨(range.2 - range.1) * ch, some (h * ch, y * ch), 0⟩) ∧
    (∀ pos h, Render.drawNodeData range ch .Hidden (.LowerBorder pos h) =
      some ⟨(range.2 - range.1) * ch, some (h * ch, 0), pos⟩) ∧
    (∀ a h_old pos h, h_old < h →
      Render.drawNodeData range ch (.LowerBorder a h_old) (.LowerBorder pos h) =
        some ⟨(range.2 - range.1) * ch, some (h * ch, 0), pos⟩) := by
  refine ⟨?_, ?_, ?_, ?_, ?_, ?_, ?_, ?_⟩
  · intro v v'
    cases v <;> cases v' <;>
      simp only [Render.drawNodeData, emitsSpec, Option.isSome_some,
        Option.isSome_none] <;>
      (split_ifs with hh <;> simp [hh])
  · intro pos h; rfl
  · intro a b pos h; rfl
  · intro a b pos h; rfl
  · intro y h; rfl
  · intro y_old b y h hlt
    simp [Render.drawNodeData, hlt]
  · intro pos h; rfl
  · intro a h_old pos h hlt
    simp [Render.drawNodeData, hlt]

/-- C2 witness: the skip-shrinking upper-border transition at concrete
values emits the cropped-from-top render. -/
theorem drawNode_transition_table_witness :
    Render.drawNodeData (10, 14) 28 (.UpperBorder 3 2) (.UpperBorder 1 4) =
      some ⟨(14 - 10) * 28, some (4 * 28, 1 * 28), 0⟩ :=
  (drawNode_transition_table (10, 14) 28).2.2.2.2.2.1 3 2 1 4 (by decide)

/-- C7 (amended): update_metadata replaces the stored metadata wholesale
by the supplied value and touches nothing else; in particular the stored
NodeViews inside the ordered index are left unchanged even when the
viewport size differs. -/
theorem update_metadata_replaces_only (st : RenderState) (md : Metadata) :
    (st.update_metadata md).metadata = md ∧
    (st.update_metadata md).strcts = st.strcts ∧
    (st.update_metadata md).blocks = st.blocks :=
  ⟨rfl, rfl, rfl⟩

/-- C7 counterexample: a state whose ordered index holds a Visible node
view, updated with metadata whose viewport size differs from the stored
one, still holds the Visible view afterwards, so not every stored
NodeView is Hidden after the call. -/
theorem update_metadata_claim_cex :
    (RenderState.update_metadata
      ⟨[("a", ⟨"a", (3, 5)⟩)], [(3, .Node ("a", .Visible 2 3))],
        ⟨(1, 20), (80, 20), 1, (1, 1)⟩⟩
      ⟨(1, 10), (80, 10), 1, (1, 1)⟩).strcts =
      [(3, FoldInner.Node ("a", NodeView.Visible 2 3))] ∧
    ((80, 10) : Nat × Nat) ≠ ((80, 20) : Nat × Nat) := by
  exact ⟨rfl, by decide⟩

theorem drawGo_skip (blocks : String → Nat × Nat) (e : Nat)
    (items : List (Nat × FoldInner)) :
    ∀ (lastLine : Nat) (topOffset : Int),
      Render.drawGo blocks items lastLine topOffset (some e) =
        Render.drawGo blocks (items.dropWhile (fun p => decide (p.1 ≤ e)))
          lastLine topOffset none := by
  induction items with
  | nil => intro lastLine topOffset; rfl
  | cons hd tl ih =>
    intro lastLine topOffset
    obtain ⟨line, item⟩ := hd
    rw [List.dropWhile_cons]
    by_cases h : line ≤ e
    · rw [if_pos (by simpa using h)]
      have hL : Render.drawGo blocks ((line, item) :: tl) lastLine topOffset
          (some e) = Render.drawGo blocks tl lastLine topOffset (some e) := by
        simp only [Render.drawGo]
        rw [if_pos h]
      rw [hL, ih]
    · rw [if_neg (by simpa using h)]
      simp only [Render.drawGo]
      rw [if_neg h]

/-- C8: the draw loop, upon a fold entry in state Folded(end), sets
last_line to end and drops every following entry whose anchor line is at
most end, without classifying it and without any offset contribution;
offset accumulation resumes at the first entry past end. Concretely,
with a closed fold (5, 12) and nodes at lines 6, 8 and 15, the nodes at
6 and 8 are never classified and the node at 15 is classified at top
offset 7. -/
theorem draw_fold_skip (blocks : String → Nat × Nat) (k fl e : Nat)
    (rest : List (Nat × FoldInner)) (lastLine : Nat) (topOffset : Int) :
    (Render.drawGo blocks ((k, .Fold ⟨fl, .Folded e⟩) :: rest) lastLine
        topOffset none =
      Render.drawGo blocks (rest.dropWhile (fun p => decide (p.1 ≤ e))) e
        (topOffset + (fl : Int) - (lastLine : Int)) none) ∧
    Render.drawCalls ⟨(1, 20), (20, 20), 1, (1, 1)⟩
      (fun id => if id = "a" then (6, 8) else if id = "b" then (8, 9)
        else if id = "c" then (15, 16) else (0, 0))
      [(5, .Fold ⟨5, .Folded 12⟩), (6, .Node ("a", .Hidden)),
        (8, .Node ("b", .Hidden)), (15, .Node ("c", .Hidden))] = [("c", 7)] := by
  constructor
  · simp only [Render.drawGo]
    rw [drawGo_skip]
  · decide

theorem mem_insertStrct {strct : List (Nat × FoldInner)} {l : Nat}
    {it : FoldInner} {x : Nat × FoldInner} (h : x ∈ insertStrct strct l it) :
    x ∈ strct ∨ x = (l, it) := by
  induction strct with
  | nil =>
    simp only [insertStrct, List.mem_singleton] at h
    exact Or.inr h
  | cons hd tl ih =>
    obtain ⟨k, v⟩ := hd
    by_cases hk : k = l
    · simp only [insertStrct, if_pos hk, List.mem_cons] at h
      rcases h with h | h
      · exact Or.inr h
      · exact Or.inl (List.mem_cons_of_mem _ h)
    · simp only [insertStrct, if_neg hk, List.mem_cons] at h
      rcases h with h | h
      · exact Or.inl (h ▸ List.mem_cons_self _ _)
      · rcases ih h with h2 | h2
        · exact Or.inl (List.mem_cons_of_mem _ h2)
        · exact Or.inr h2

theorem processGo_strct_hidden (regions : List Content.Region) :
    ∀ (old nodes : List (String × Content.Node))
      (strct : List (Nat × FoldInner)) (changed : Bool) (line : Nat)
      (id : String) (view : NodeView),
      (line, FoldInner.Node (id, view)) ∈
        (Content.processGo regions old nodes strct changed).2.1 →
      view = .Hidden ∨ (line, FoldInner.Node (id, view)) ∈ strct := by
  induction regions with
  | nil =>
    intro old nodes strct changed line id view h
    exact Or.inr h
  | cons r rest ih =>
    intro old nodes strct changed line id view h
    cases hrem : removeNode old r.id with
    | some pr =>
      obtain ⟨nd, old2⟩ := pr
      simp only [Content.processGo, hrem] at h
      rcases ih _ _ _ _ _ _ _ h with h1 | h1
      · exact Or.inl h1
      · rcases mem_insertStrct h1 with h2 | h2
        · exact Or.inr h2
        · simp only [Prod.mk.injEq, FoldInner.Node.injEq] at h2
          exact Or.inl h2.2.2
    | none =>
      simp only [Content.processGo, hrem] at h
      rcases ih _ _ _ _ _ _ _ h with h1 | h1
      · exact Or.inl h1
      · rcases mem_insertStrct h1 with h2 | h2
        · exact Or.inr h2
        · simp only [Prod.mk.injEq, FoldInner.Node.injEq] at h2
          exact Or.inl h2.2.2

/-- C9: every node entry of the ordered index built by a content update
carries NodeView::Hidden — including entries for nodes whose identity
and line range are unchanged — so every node goes through a from-Hidden
transition on the next draw pass. -/
theorem process_views_hidden (folds : List Nat)
    (regions : List Content.Region)
    (old_nodes : List (String × Content.Node)) (line : Nat) (id : String)
    (view : NodeView)
    (h : (line, FoldInner.Node (id, view)) ∈
      (Content.process folds regions old_nodes).2.1) :
    view = .Hidden := by
  simp only [Content.process] at h
  rcases processGo_strct_hidden regions old_nodes [] _ false line id view h
    with h1 | h1
  · exact h1
  · exfalso
    simp only [List.mem_map] at h1
    obtain ⟨l2, _, heq⟩ := h1
    simp at heq

/-- C9 witness: the single node entry of a concrete update carries
Hidden. -/
theorem process_views_hidden_witness : NodeView.Hidden = NodeView.Hidden :=
  process_views_hidden [2] [⟨1, 5, "x", "x", .Math⟩] [] 5 "x" .Hidden (by decide)


theorem lookup_insertNode_self (m : List (String × Content.Node)) (id : String)
    (n : Content.Node) : lookupNode (insertNode m id n) id = some n := by
  induction m with
  | nil => simp [insertNode, lookupNode]
  | cons hd tl ih =>
    obtain ⟨k, v⟩ := hd
    by_cases hk : k = id
    · simp [insertNode, if_pos hk, lookupNode]
    · simp only [insertNode, if_neg hk, lookupNode]
      exact ih

theorem lookup_insertNode_other (m : List (String × Content.Node))
    (id id2 : String) (n : Content.Node) (hne : id2 ≠ id) :
    lookupNode (insertNode m id n) id2 = lookupNode m id2 := by
  have hne2 : ¬ id = id2 := fun h => hne h.symm
  induction m with
  | nil => simp [insertNode, lookupNode, hne2]
  | cons hd tl ih =>
    obtain ⟨k, v⟩ := hd
    by_cases hk : k = id
    · subst hk
      simp [insertNode, lookupNode, hne2]
    · by_cases hk2 : k = id2
      · simp only [insertNode, if_neg hk, lookupNode, if_pos hk2]
      · simp only [insertNode, if_neg hk, lookupNode, if_neg hk2]
        exact ih

theorem removeNode_lookup (m : List (String × Content.Node)) (id : String)
    (n : Content.Node) (h : lookupNode m id = some n) :
    ∃ m2, removeNode m id = some (n, m2) ∧
      ∀ id2, id2 ≠ id → lookupNode m2 id2 = lookupNode m id2 := by
  induction m with
  | nil => simp [lookupNode] at h
  | cons hd tl ih =>
    obtain ⟨k, v⟩ := hd
    by_cases hk : k = id
    · subst hk
      simp only [lookupNode, eq_self_iff_true, if_true,
        Option.some.injEq] at h
      subst h
      refine ⟨tl, by simp [removeNode], ?_⟩
      intro id2 hne
      have hne2 : ¬ k = id2 := fun hh => hne hh.symm
      simp [lookupNode, hne2]
    · simp only [lookupNode, if_neg hk] at h
      obtain ⟨m2, hrem, hpres⟩ := ih h
      refine ⟨(k, v) :: m2, by simp [removeNode, hk, hrem], ?_⟩
      intro id2 hne
      by_cases hk2 : k = id2
      · simp [lookupNode, hk2]
      · simp only [lookupNode, if_neg hk2]
        exact hpres id2 hne

theorem processGo_lookup_frozen (regions : List Content.Region) :
    ∀ (old nodes : List (String × Content.Node))
      (strct : List (Nat × FoldInner)) (changed : Bool) (id : String),
      id ∉ regions.map Content.Region.id →
      lookupNode (Content.processGo regions old nodes strct changed).1 id =
        lookupNode nodes id := by
  induction regions with
  | nil => intro old nodes strct changed id _; rfl
  | cons r rest ih =>
    intro old nodes strct changed id hid
    simp only [List.map_cons, List.mem_cons] at hid
    push_neg at hid
    obtain ⟨hne, hrest⟩ := hid
    cases hrem : removeNode old r.id with
    | some pr =>
      obtain ⟨nd, old2⟩ := pr
      simp only [Content.processGo, hrem]
      rw [ih _ _ _ _ _ hrest, lookup_insertNode_other _ _ _ _ hne]
    | none =>
      simp only [Content.processGo, hrem]
      rw [ih _ _ _ _ _ hrest, lookup_insertNode_other _ _ _ _ hne]

theorem processGo_lookup_self (regions : List Content.Region) :
    ∀ (old nodes : List (String × Content.Node))
      (strct : List (Nat × FoldInner)) (changed : Bool),
      (regions.map Content.Region.id).Nodup →
      ∀ reg ∈ regions, ∃ n,
        lookupNode (Content.processGo regions old nodes strct changed).1
          reg.id = some n ∧
        n.range = (reg.line, reg.line + reg.height) := by
  induction regions with
  | nil => intro old nodes strct changed _ reg hreg; cases hreg
  | cons r rest ih =>
    intro old nodes strct changed hnodup reg hreg
    simp only [List.map_cons, List.nodup_cons] at hnodup
    obtain ⟨hnotin, hnodup2⟩ := hnodup
    rcases List.mem_cons.mp hreg with heq | hmem
    · rw [heq]
      cases hrem : removeNode old r.id with
      | some pr =>
        obtain ⟨nd, old2⟩ := pr
        simp only [Content.processGo, hrem]
        exact ⟨{ nd with range := (r.line, r.line + r.height) },
          by rw [processGo_lookup_frozen rest _ _ _ _ _ hnotin,
            lookup_insertNode_self], rfl⟩
      | none =>
        simp only [Content.processGo, hrem]
        exact ⟨Content.Node.new r.id (r.line, r.line + r.height)
          r.content r.kind,
          by rw [processGo_lookup_frozen rest _ _ _ _ _ hnotin,
            lookup_insertNode_self], rfl⟩
    · cases hrem : removeNode old r.id with
      | some pr =>
        obtain ⟨nd, old2⟩ := pr
        simp only [Content.processGo, hrem]
        exact ih _ _ _ _ hnodup2 reg hmem
      | none =>
        simp only [Content.processGo, hrem]
        exact ih _ _ _ _ hnodup2 reg hmem

theorem processGo_stable (regions : List Content.Region) :
    ∀ (old nodes : List (String × Content.Node))
      (strct : List (Nat × FoldInner)),
      (regions.map Content.Region.id).Nodup →
      (∀ reg ∈ regions, ∃ n, lookupNode old reg.id = some n ∧
        n.range = (reg.line, reg.line + reg.height)) →
      (Content.processGo regions old nodes strct false).2.2 = false ∧
      ∀ reg ∈ regions,
        lookupNode (Content.processGo regions old nodes strct false).1
          reg.id = lookupNode old reg.id := by
  induction regions with
  | nil =>
    intro old nodes strct _ _
    exact ⟨rfl, fun reg hreg => by cases hreg⟩
  | cons r rest ih =>
    intro old nodes strct hnodup hold
    simp only [List.map_cons, List.nodup_cons] at hnodup
    obtain ⟨hnotin, hnodup2⟩ := hnodup
    obtain ⟨n, hlook, hrange⟩ := hold r (List.mem_cons_self r rest)
    obtain ⟨old2, hrem, hpres⟩ := removeNode_lookup old r.id n hlook
    have hupd : ({ n with range := (r.line, r.line + r.height) } :
        Content.Node) = n := by
      rw [← hrange]
    have hflag : (false || decide ((r.line, r.line + r.height) ≠ n.range))
        = false := by
      simp [hrange]
    have hold2 : ∀ reg ∈ rest, ∃ n2, lookupNode old2 reg.id = some n2 ∧
        n2.range = (reg.line, reg.line + reg.height) := by
      intro reg hmem
      have hne : reg.id ≠ r.id := fun hid =>
        hnotin (hid ▸ List.mem_map_of_mem Content.Region.id hmem)
      rw [hpres reg.id hne]
      exact hold reg (List.mem_cons_of_mem r hmem)
    simp only [Content.processGo, hrem, hupd, hflag]
    obtain ⟨hflag2, hlooks⟩ := ih old2 (insertNode nodes r.id n)
      (insertStrct strct r.line (.Node (r.id, .Hidden))) hnodup2 hold2
    refine ⟨hflag2, ?_⟩
    intro reg hreg
    rcases List.mem_cons.mp hreg with heq | hmem
    · rw [heq]
      rw [processGo_lookup_frozen rest _ _ _ _ _ hnotin,
        lookup_insertNode_self, hlook]
    · have hne : reg.id ≠ r.id := fun hid =>
        hnotin (hid ▸ List.mem_map_of_mem Content.Region.id hmem)
      rw [hlooks reg hmem, hpres reg.id hne]

theorem processGo_strct_congr (regions : List Content.Region) :
    ∀ (o1 o2 n1 n2 : List (String × Content.Node))
      (strct : List (Nat × FoldInner)) (c1 c2 : Bool),
      (Content.processGo regions o1 n1 strct c1).2.1 =
        (Content.processGo regions o2 n2 strct c2).2.1 := by
  induction regions with
  | nil => intro o1 o2 n1 n2 strct c1 c2; rfl
  | cons r rest ih =>
    intro o1 o2 n1 n2 strct c1 c2
    cases hrem1 : removeNode o1 r.id with
    | some pr1 =>
      obtain ⟨nd1, or1⟩ := pr1
      cases hrem2 : removeNode o2 r.id with
      | some pr2 =>
        obtain ⟨nd2, or2⟩ := pr2
        simp only [Content.processGo, hrem1, hrem2]
        exact ih _ _ _ _ _ _ _
      | none =>
        simp only [Content.processGo, hrem1, hrem2]
        exact ih _ _ _ _ _ _ _
    | none =>
      cases hrem2 : removeNode o2 r.id with
      | some pr2 =>
        obtain ⟨nd2, or2⟩ := pr2
        simp only [Content.processGo, hrem1, hrem2]
        exact ih _ _ _ _ _ _ _
      | none =>
        simp only [Content.processGo, hrem1, hrem2]
        exact ih _ _ _ _ _ _ _

/-- C3 (amended): when all scanned regions carry distinct identities,
re-running the content reconciliation on its own output yields the
changed flag false, an identical ordered index, and for every region the
very node produced by the first run (same generation state and cache; no
fresh node, hence no new generation). With duplicated identities
(byte-identical regions) the reconciliation recreates the shared
identity every scan and keeps reporting changed — see the
counterexample. -/
theorem update_content_idempotent (folds : List Nat)
    (regions : List Content.Region)
    (old_nodes : List (String × Content.Node))
    (hnodup : (regions.map Content.Region.id).Nodup) :
    (Content.process folds regions
        (Content.process folds regions old_nodes).1).2.2 = false ∧
    (Content.process folds regions
        (Content.process folds regions old_nodes).1).2.1 =
      (Content.process folds regions old_nodes).2.1 ∧
    ∀ reg ∈ regions,
      lookupNode (Content.process folds regions
          (Content.process folds regions old_nodes).1).1 reg.id =
        lookupNode (Content.process folds regions old_nodes).1 reg.id ∧
      (lookupNode (Content.process folds regions old_nodes).1
        reg.id).isSome = true := by
  simp only [Content.process]
  have hfirst := processGo_lookup_self regions old_nodes []
    (folds.map (fun line => (line, FoldInner.Fold ⟨line, FoldState.Open⟩)))
    false hnodup
  have hstable := processGo_stable regions
    (Content.processGo regions old_nodes []
      (folds.map (fun line => (line, FoldInner.Fold ⟨line, FoldState.Open⟩)))
      false).1 []
    (folds.map (fun line => (line, FoldInner.Fold ⟨line, FoldState.Open⟩)))
    hnodup hfirst
  refine ⟨hstable.1, processGo_strct_congr regions _ _ _ _ _ _ _, ?_⟩
  intro reg hreg
  refine ⟨hstable.2 reg hreg, ?_⟩
  obtain ⟨n, hl, _⟩ := hfirst reg hreg
  simp [hl]

/-- C3 witness: a two-region document with distinct identities scanned
twice reports the changed flag false on the second run. -/
theorem update_content_idempotent_witness :
    (Content.process [1] [⟨1, 3, "x", "hx", .Math⟩, ⟨2, 6, "y", "hy", .Math⟩]
      (Content.process [1]
        [⟨1, 3, "x", "hx", .Math⟩, ⟨2, 6, "y", "hy", .Math⟩] []).1).2.2 =
      false :=
  (update_content_idempotent [1]
    [⟨1, 3, "x", "hx", .Math⟩, ⟨2, 6, "y", "hy", .Math⟩] [] (by decide)).1

/-- C3 counterexample: a document holding two byte-identical math regions
(same identity, lines 3 and 7) scanned twice still reports the changed
flag true on the second run: the shared identity is claimed by the first
region, so the second region recreates a fresh node on every scan. -/
theorem update_content_idempotent_cex :
    (Content.process [] [⟨1, 3, "x", "x", .Math⟩, ⟨1, 7, "x", "x", .Math⟩]
      (Content.process []
        [⟨1, 3, "x", "x", .Math⟩, ⟨1, 7, "x", "x", .Math⟩] []).1).2.2 =
      true := by
  decide

theorem getSixel_hit_eq {n : Content.Node} {dim : NodeDim} {b : Sixel}
    (hl : lookupCache n.sixel_cache dim = some b) :
    n.get_sixel dim = (some (.ok b), n, none) := by
  simp [Content.Node.get_sixel, hl]

theorem getSixel_empty_eq {n : Content.Node} {dim : NodeDim}
    (hl : lookupCache n.sixel_cache dim = none) (hs : n.state = .Empty) :
    n.get_sixel dim =
      (none, { n with state := .Running }, some (.generate n.content)) := by
  simp [Content.Node.get_sixel, hl, hs]

theorem getSixel_err_eq {n : Content.Node} {dim : NodeDim} {e : Error}
    (hl : lookupCache n.sixel_cache dim = none) (hs : n.state = .Err e) :
    n.get_sixel dim = (some (.error e), { n with state := .Empty }, none) := by
  simp [Content.Node.get_sixel, hl, hs]

theorem getSixel_ok_eq {n : Content.Node} {dim : NodeDim} {w : WrappedWand}
    (hl : lookupCache n.sixel_cache dim = none) (hs : n.state = .Ok w) :
    n.get_sixel dim =
      (none, { n with state := .Running }, some (.toSixel w dim)) := by
  simp [Content.Node.get_sixel, hl, hs]

theorem getSixel_running_eq {n : Content.Node} {dim : NodeDim}
    (hl : lookupCache n.sixel_cache dim = none) (hs : n.state = .Running) :
    n.get_sixel dim = (none, n, none) := by
  simp [Content.Node.get_sixel, hl, hs]

theorem inv_new (id : String) (range : Nat × Nat) (c : String)
    (k : ContentType) : Content.Inv (Content.Node.new id range c k, []) := by
  refine ⟨by simp, by simp [Content.Node.new], by simp [Content.Node.new],
    by simp, by simp⟩

theorem inv_step {s s' : Content.Node × List Content.Work}
    (hinv : Content.Inv s) (hstep : Content.Step s s') : Content.Inv s' := by
  obtain ⟨h1, h2, h3, h4, h5⟩ := hinv
  cases hstep with
  | request n p dim =>
    cases hl : lookupCache n.sixel_cache dim with
    | some b =>
      rw [getSixel_hit_eq hl]
      simpa using ⟨h1, h2, h3, h4, h5⟩
    | none =>
      cases hstate : n.state with
      | Empty =>
        have hp : p = [] := by
          by_contra hne
          have hrun := h2.mpr hne
          rw [hstate] at hrun
          exact ContentState.noConfusion hrun
        subst hp
        have hcache : n.sixel_cache = [] := h3 (Or.inl hstate)
        rw [getSixel_empty_eq hl hstate]
        refine ⟨by simp, by simp, ?_, ?_, ?_⟩
        · intro hor
          rcases hor with hE | ⟨e, hE⟩ <;> simp at hE
        · intro c hc
          simpa using hcache
        · intro w dim2 hw
          simp at hw
      | Err e =>
        have hp : p = [] := by
          by_contra hne
          have hrun := h2.mpr hne
          rw [hstate] at hrun
          exact ContentState.noConfusion hrun
        subst hp
        have hcache : n.sixel_cache = [] := h3 (Or.inr ⟨e, hstate⟩)
        rw [getSixel_err_eq hl hstate]
        refine ⟨by simp, by simp, ?_, ?_, ?_⟩
        · intro _
          simpa using hcache
        · intro c hc
          simp at hc
        · intro w dim2 hw
          simp at hw
      | Ok w =>
        have hp : p = [] := by
          by_contra hne
          have hrun := h2.mpr hne
          rw [hstate] at hrun
          exact ContentState.noConfusion hrun
        subst hp
        rw [getSixel_ok_eq hl hstate]
        refine ⟨by simp, by simp, ?_, ?_, ?_⟩
        · intro hor
          rcases hor with hE | ⟨e, hE⟩ <;> simp at hE
        · intro c hc
          simp at hc
        · intro w2 dim2 hw
          simp only [List.nil_append, Option.toList_some, List.mem_singleton,
            Content.Work.toSixel.injEq] at hw
          obtain ⟨hw2, hd2⟩ := hw
          subst hd2
          simpa using hl
      | Running =>
        rw [getSixel_running_eq hl hstate]
        simpa using ⟨h1, h2, h3, h4, h5⟩
  | completeGenOk n p₁ p₂ c w =>
    simp only [List.length_append, List.length_cons] at h1
    have hp1 : p₁ = [] := List.length_eq_zero.mp (by omega)
    have hp2 : p₂ = [] := List.length_eq_zero.mp (by omega)
    subst hp1
    subst hp2
    refine ⟨by simp, by simp, ?_, ?_, ?_⟩
    · intro hor
      rcases hor with hE | ⟨e, hE⟩ <;> simp at hE
    · intro c2 hc
      simp at hc
    · intro w2 dim2 hw
      simp at hw
  | completeGenErr n p₁ p₂ c e =>
    simp only [List.length_append, List.length_cons] at h1
    have hp1 : p₁ = [] := List.length_eq_zero.mp (by omega)
    have hp2 : p₂ = [] := List.length_eq_zero.mp (by omega)
    subst hp1
    subst hp2
    have hcache : n.sixel_cache = [] := h4 c (by simp)
    refine ⟨by simp, by simp, ?_, ?_, ?_⟩
    · intro _
      simpa using hcache
    · intro c2 hc
      simp at hc
    · intro w2 dim2 hw
      simp at hw
  | completeSixel n p₁ p₂ w dim =>
    simp only [List.length_append, List.length_cons] at h1
    have hp1 : p₁ = [] := List.length_eq_zero.mp (by omega)
    have hp2 : p₂ = [] := List.length_eq_zero.mp (by omega)
    subst hp1
    subst hp2
    refine ⟨by simp, by simp, ?_, ?_, ?_⟩
    · intro hor
      rcases hor with hE | ⟨e, hE⟩ <;> simp at hE
    · intro c2 hc
      simp at hc
    · intro w2 dim2 hw
      simp at hw

theorem reach_inv {id : String} {range : Nat × Nat} {c : String}
    {k : ContentType} {s : Content.Node × List Content.Work}
    (h : Content.Reach (Content.Node.new id range c k) s) : Content.Inv s := by
  induction h with
  | init => exact inv_new id range c k
  | step hr hs ih => exact inv_step ih hs

theorem lookup_insertCache_ne (cache : List (NodeDim × Sixel))
    (dim2 dim : NodeDim) (blob : Sixel) (hne : ¬ dim2 = dim) :
    lookupCache (insertCache cache dim2 blob) dim = lookupCache cache dim := by
  induction cache with
  | nil => simp [insertCache, lookupCache, hne]
  | cons hd tl ih =>
    obtain ⟨k, v⟩ := hd
    by_cases hk : k = dim2
    · subst hk
      simp only [insertCache, if_pos rfl, lookupCache, if_neg hne]
    · by_cases hk2 : k = dim
      · simp only [insertCache, if_neg hk, lookupCache, if_pos hk2]
      · simp only [insertCache, if_neg hk, lookupCache, if_neg hk2]
        exact ih

theorem step_preserves_cache {s s' : Content.Node × List Content.Work}
    (hinv : Content.Inv s) (hstep : Content.Step s s') {dim : NodeDim}
    {b : Sixel} (hl : lookupCache s.1.sixel_cache dim = some b) :
    lookupCache s'.1.sixel_cache dim = some b := by
  obtain ⟨h1, h2, h3, h4, h5⟩ := hinv
  cases hstep with
  | request n p dim2 =>
    have hsame : ((n.get_sixel dim2).2.1).sixel_cache = n.sixel_cache := by
      cases hl2 : lookupCache n.sixel_cache dim2 with
      | some b2 => simp [Content.Node.get_sixel, hl2]
      | none =>
        cases hstate : n.state <;>
          simp [Content.Node.get_sixel, hl2, hstate]
    rw [hsame]
    exact hl
  | completeGenOk n p₁ p₂ c w => exact hl
  | completeGenErr n p₁ p₂ c e => exact hl
  | completeSixel n p₁ p₂ w dim2 =>
    have hnone : lookupCache n.sixel_cache dim2 = none := h5 w dim2 (by simp)
    have hne : ¬ dim2 = dim := by
      intro h
      rw [h, hl] at hnone
      exact Option.noConfusion hnone
    simpa [lookup_insertCache_ne _ _ _ _ hne] using hl

theorem reach_sampleNodeOk : Content.Reach sampleNode0 (sampleNodeOk, []) :=
  Content.Reach.step
    (Content.Reach.step Content.Reach.init
      (Content.Step.request sampleNode0 [] sampleDim))
    (Content.Step.completeGenOk _ [] [] ("x", .Math) sampleWand)

theorem reach_sampleNodeErr : Content.Reach sampleNode0 (sampleNodeErr, []) :=
  Content.Reach.step
    (Content.Reach.step Content.Reach.init
      (Content.Step.request sampleNode0 [] sampleDim))
    (Content.Step.completeGenErr _ [] [] ("x", .Math) (.FileNotFound "f"))

theorem reach_sampleNodeCached :
    Content.Reach sampleNode0 (sampleNodeCached, []) :=
  Content.Reach.step
    (Content.Reach.step reach_sampleNodeOk
      (Content.Step.request sampleNodeOk [] sampleDim))
    (Content.Step.completeSixel _ [] [] sampleWand sampleDim)

theorem reach_sampleNodeRunningCached :
    Content.Reach sampleNode0
      (sampleNodeRunningCached, [Content.Work.toSixel sampleWand sampleDim2]) :=
  Content.Reach.step reach_sampleNodeCached
    (Content.Step.request sampleNodeCached [] sampleDim2)

/-- C4: in any reachable node state whose generation state is Err(e), the
next geometry request returns exactly that error, spawns nothing, and
resets the state to Empty; the request after that does not see the error
again but begins generation from scratch (state Running with a generate
task spawned). -/
theorem get_sixel_error_once (id : String) (range : Nat × Nat) (c : String)
    (k : ContentType) (s : Content.Node) (p : List Content.Work) (e : Error)
    (dim : NodeDim)
    (hreach : Content.Reach (Content.Node.new id range c k) (s, p))
    (herr : s.state = .Err e) :
    s.get_sixel dim = (some (.error e), { s with state := .Empty }, none) ∧
    ({ s with state := .Empty } : Content.Node).get_sixel dim =
      (none, { s with state := .Running }, some (.generate s.content)) := by
  have hcache : s.sixel_cache = [] :=
    (reach_inv hreach).2.2.1 (Or.inr ⟨e, herr⟩)
  have hl : lookupCache s.sixel_cache dim = none := by
    rw [hcache]
    rfl
  constructor
  · exact getSixel_err_eq hl herr
  · exact getSixel_empty_eq (by simpa using hl) rfl

/-- C4 witness: a node reached through a failed generation surfaces the
error once and resets to Empty. -/
theorem get_sixel_error_once_witness :
    sampleNodeErr.get_sixel sampleDim =
      (some (.error (.FileNotFound "f")),
        { sampleNodeErr with state := .Empty }, none) :=
  (get_sixel_error_once "a" (1, 2) "x" .Math sampleNodeErr []
    (.FileNotFound "f") sampleDim reach_sampleNodeErr rfl).1

/-- C5 (amended): in any reachable state at most one background task is
pending; while the generation state is Running, a request whose geometry
misses the SIXEL cache returns none, spawns no work and leaves the node
(state included) unchanged; a request whose geometry hits the cache,
however, returns the cached blob — also without state change or spawned
work — which is the one exception to the claimed unconditional none. -/
theorem get_sixel_running_no_spawn (id : String) (range : Nat × Nat)
    (c : String) (k : ContentType) (s : Content.Node)
    (p : List Content.Work) (dim : NodeDim)
    (hreach : Content.Reach (Content.Node.new id range c k) (s, p)) :
    (s.state = .Running → lookupCache s.sixel_cache dim = none →
      s.get_sixel dim = (none, s, none)) ∧
    (∀ b, lookupCache s.sixel_cache dim = some b →
      s.get_sixel dim = (some (.ok b), s, none)) ∧
    p.length ≤ 1 := by
  exact ⟨fun hs hl => getSixel_running_eq hl hs,
    fun b hb => getSixel_hit_eq hb, (reach_inv hreach).1⟩

/-- C5 witness: a cache-missing request in the Running state returns
none, spawns nothing, and leaves the node unchanged. -/
theorem get_sixel_running_no_spawn_witness :
    sampleNodeRunningCached.get_sixel sampleDim2 =
      (none, sampleNodeRunningCached, none) :=
  (get_sixel_running_no_spawn "a" (1, 2) "x" .Math sampleNodeRunningCached
    [Content.Work.toSixel sampleWand sampleDim2] sampleDim2
    reach_sampleNodeRunningCached).1 rfl rfl

/-- C5 counterexample: a reachable state with generation state Running (a
render for sampleDim2 in flight) whose cache already holds the blob for
sampleDim: the request for sampleDim returns the cached blob, not the
claimed unconditional "not yet available". -/
theorem get_sixel_running_claim_cex :
    Content.Reach sampleNode0
      (sampleNodeRunningCached, [Content.Work.toSixel sampleWand sampleDim2]) ∧
    sampleNodeRunningCached.state = .Running ∧
    (sampleNodeRunningCached.get_sixel sampleDim).1 = some (.ok sampleBlob) :=
  ⟨reach_sampleNodeRunningCached, rfl, rfl⟩

/-- C6: once a geometry render for a key has completed and populated the
cache of a reachable node, a request for that key returns exactly the
cached blob, with no state change and no spawned work, and every further
step of the system preserves that cache entry unchanged. -/
theorem get_sixel_cache_roundtrip (id : String) (range : Nat × Nat)
    (c : String) (k : ContentType) (s : Content.Node)
    (p : List Content.Work) (dim : NodeDim) (blob : Sixel)
    (hreach : Content.Reach (Content.Node.new id range c k) (s, p))
    (hhit : lookupCache s.sixel_cache dim = some blob) :
    s.get_sixel dim = (some (.ok blob), s, none) ∧
    ∀ s2, Content.Step (s, p) s2 →
      lookupCache s2.1.sixel_cache dim = some blob := by
  exact ⟨getSixel_hit_eq hhit,
    fun s2 hstep => step_preserves_cache (reach_inv hreach) hstep hhit⟩

/-- C6 witness: the populated sample cache answers the same key with the
identical blob, unchanged node and no spawned work. -/
theorem get_sixel_cache_roundtrip_witness :
    sampleNodeCached.get_sixel sampleDim =
      (some (.ok sampleBlob), sampleNodeCached, none) :=
  (get_sixel_cache_roundtrip "a" (1, 2) "x" .Math sampleNodeCached []
    sampleDim sampleBlob reach_sampleNodeCached rfl).1
